import Mathlib

/-!
Verification of the call-site extraction and aggregation pipeline of the
aws-mocker repository (pkg/mock/mock.go, pkg/writer/writer.go, main.go).

The Go code is shallowly embedded: the per-symbol body of the big loop in
Run is a function on an explicit accumulator state, the Go map
map[string]PackageInfo is modelled as an association list with unique
Path keys built from the empty list, and fatal control flow (os.Exit and
index-out-of-range panics) is modelled with Except / Option results.
-/

namespace AwsMocker

/-- Embeds type FuncSig of mock.go: a function name and the extracted
return-type component. -/
structure FuncSig where
  FuncName : String
  Return : String
deriving DecidableEq, Repr

/-- Embeds type PackageInfo of mock.go: one bucket of the aggregation map. -/
structure PackageInfo where
  Path : String
  Name : String
  FuncSigs : List FuncSig
deriving DecidableEq, Repr

/-- One accepted symbol observation, i.e. the data the loop body of Run
reads for a symbol that passed every filter: f.Pkg().Path(), f.Pkg().Name(),
f.Name() and the extracted return component. -/
structure Obs where
  pkgPath : String
  pkgName : String
  funcName : String
  returnType : String
deriving DecidableEq, Repr

/-- Shorthand for the FuncSig built at lines 98-101 of mock.go. -/
def Obs.sig (o : Obs) : FuncSig :=
  { FuncName := o.funcName, Return := o.returnType }

/-- Embeds the bucket update of lines 103-107 of mock.go: append the new
FuncSig unless the identical pair is already present (slices.Contains
compares the whole FuncSig value). -/
def updateBucket (p : PackageInfo) (o : Obs) : PackageInfo :=
  if o.sig ∈ p.FuncSigs then p
  else { p with FuncSigs := p.FuncSigs ++ [o.sig] }

/-- Embeds the bucket creation of lines 108-114 of mock.go. -/
def newBucket (o : Obs) : PackageInfo :=
  { Path := o.pkgPath, Name := o.pkgName, FuncSigs := [o.sig] }

/-- Embeds one iteration of the accumulation loop of Run (lines 103-114):
the Go map resses is modelled as an association list with unique Path
keys; lookup and in-place update of the entry keyed by o.pkgPath, or
append of a fresh bucket when the key is absent. -/
def insertObs (s : List PackageInfo) (o : Obs) : List PackageInfo :=
  match s with
  | [] => [newBucket o]
  | p :: rest =>
    if p.Path = o.pkgPath then updateBucket p o :: rest
    else p :: insertObs rest o

/-- Embeds the whole accumulation loop of Run over a given sequence of
accepted observations, starting from the empty map of line 64. -/
def run (l : List Obs) : List PackageInfo :=
  l.foldl insertObs []

/-- Lexicographic order on Go strings, modelled on the character list of
the Lean string (for UTF-8 data, byte-wise order and code-point order
coincide, so this is Go's built-in string comparison). -/
def strLe (a b : String) : Prop := a.data ≤ b.data

instance : DecidableRel strLe :=
  fun a b => inferInstanceAs (Decidable (a.data ≤ b.data))

/-- Comparator of line 190 of mock.go, closed under equality: sort.Slice
with the strict less FuncName i < FuncName j produces a sequence sorted
by this reflexive relation. -/
def sigLe (a b : FuncSig) : Prop := strLe a.FuncName b.FuncName

/-- Comparator of line 196 of mock.go, closed under equality. -/
def pkgLe (a b : PackageInfo) : Prop := strLe a.Path b.Path

instance : DecidableRel sigLe :=
  fun a b => inferInstanceAs (Decidable (strLe a.FuncName b.FuncName))

instance : DecidableRel pkgLe :=
  fun a b => inferInstanceAs (Decidable (strLe a.Path b.Path))

instance : IsTotal FuncSig sigLe := ⟨fun a b => le_total a.FuncName.data b.FuncName.data⟩

instance : IsTrans FuncSig sigLe := ⟨fun _ _ _ h h' => le_trans h h'⟩

instance : IsTotal PackageInfo pkgLe := ⟨fun a b => le_total a.Path.data b.Path.data⟩

instance : IsTrans PackageInfo pkgLe := ⟨fun _ _ _ h h' => le_trans h h'⟩

/-- Embeds the per-bucket sort of lines 189-191 of mock.go. -/
def sortBucket (p : PackageInfo) : PackageInfo :=
  { p with FuncSigs := p.FuncSigs.insertionSort sigLe }

/-- Embeds sortPackages of mock.go (lines 186-199): sort every bucket's
FuncSigs by FuncName, then sort the buckets by Path. The iteration
order of the Go map is immaterial to the claims, which quantify over
every order of the input buckets. -/
def sortPackages (s : List PackageInfo) : List PackageInfo :=
  (s.map sortBucket).insertionSort pkgLe

/-- The full aggregation: accumulate then sort, as Run does at line 126. -/
def aggregate (l : List Obs) : List PackageInfo :=
  sortPackages (run l)

/-- Key sequence of the modelled Go map. -/
def keys (s : List PackageInfo) : List String :=
  s.map PackageInfo.Path

/-- Lookup in the modelled Go map. -/
def findByPath (s : List PackageInfo) (p : String) : Option PackageInfo :=
  s.find? (fun b => b.Path == p)

/-- Observations of the input stream that belong to package path p. -/
def obsAt (l : List Obs) (p : String) : List Obs :=
  l.filter (fun o => o.pkgPath == p)

/-- One step of first-occurrence deduplication, matching the membership
test of line 104 of mock.go. -/
def dedupStep (acc : List FuncSig) (f : FuncSig) : List FuncSig :=
  if f ∈ acc then acc else acc ++ [f]

/-- First-occurrence deduplication of a signature sequence. -/
def dedupSigs (fs : List FuncSig) : List FuncSig :=
  fs.foldl dedupStep []

/-- Intended value of the aggregation map at key p, expressed directly on
the observation stream: the bucket carries the short name of the first
observation for p and the first-occurrence deduplication of all the
signatures observed for p. -/
def aggregateAt (l : List Obs) (p : String) : Option PackageInfo :=
  match obsAt l p with
  | [] => none
  | o :: _ =>
    some { Path := p, Name := o.pkgName, FuncSigs := dedupSigs ((obsAt l p).map Obs.sig) }

/-- Coherence of an observation stream: observations agree on the short
name of a package and on the return type of a function. In the Go
program both hold by construction, because f.Pkg().Name() is a function
of f.Pkg().Path() and a function declaration determines its signature;
over the free SymbolObservation data type they are genuine side
conditions. -/
def Coherent (l : List Obs) : Prop :=
  ∀ o₁ ∈ l, ∀ o₂ ∈ l, o₁.pkgPath = o₂.pkgPath →
    o₁.pkgName = o₂.pkgName ∧ (o₁.funcName = o₂.funcName → o₁.returnType = o₂.returnType)

instance : DecidablePred Coherent := fun l => by
  unfold Coherent
  infer_instance

/-- Strict version of the bucket-sort comparator, used to show that a
sorted sequence with pairwise distinct FuncNames is unique. -/
def sigKeyLt (a b : FuncSig) : Prop := sigLe a b ∧ a.FuncName ≠ b.FuncName

/-- Strict version of the package-sort comparator. -/
def pkgKeyLt (a b : PackageInfo) : Prop := pkgLe a b ∧ a.Path ≠ b.Path

instance : IsAntisymm FuncSig sigKeyLt := ⟨fun x y hab hba => by
  have h : x.FuncName = y.FuncName :=
    congrArg String.mk (le_antisymm hab.1 hba.1)
  exact absurd h hab.2⟩

instance : IsAntisymm PackageInfo pkgKeyLt := ⟨fun x y hab hba => by
  have h : x.Path = y.Path :=
    congrArg String.mk (le_antisymm hab.1 hba.1)
  exact absurd h hab.2⟩

/-- Embeds a resolved *types.Func object as the extraction loop of Run
reads it: its name, its owning package (None models obj.Pkg() == nil,
line 82), whether f.Parent() is nil (line 89), and the fully qualified
type strings of its signature's results (None models a failing type
assertion at line 92, Some rs the tuple sig.Results()). -/
structure FuncSym where
  name : String
  pkg : Option (String × String)
  parentIsNil : Bool
  results : Option (List String)
deriving DecidableEq, Repr

/-- Embeds one entry of pkg.TypesInfo.Uses: either a *types.Func or some
other object kind, which the type switch of line 80 skips. -/
inductive SymUse where
  | funcSym (f : FuncSym)
  | otherSym
deriving DecidableEq, Repr

/-- Fatal outcomes of the loop body: the failed type assertion that calls
os.Exit at line 95, the index-out-of-range panic of Results().At(0) when
the signature has no results, and the index-out-of-range panic of
strings.Split(...)[2] when the type string has fewer than three
dot-separated components (both at line 100). All three abort the run. -/
inductive ExtractErr where
  | assertFailed
  | noResults
  | shortTypeName
deriving DecidableEq, Repr

/-- Character sequence of the hardcoded filter regexp of line 53. In the
regexp, each dot matches any character and the trailing element is a
Kleene star on the slash, matching zero or more slashes; MatchString is
an unanchored substring search, so the pattern matches exactly when the
36-character core (with dots as wildcards) occurs somewhere. -/
def filterPat : List Char := "github.com/aws/aws-sdk-go-v2/service".toList

/-- Matches the filter pattern characters against a prefix of the text,
treating a dot in the pattern as a wildcard. -/
def matchesHere : List Char → List Char → Bool
  | [], _ => true
  | _ :: _, [] => false
  | p :: ps, c :: cs => (p == '.' || p == c) && matchesHere ps cs

/-- Unanchored search for the pattern anywhere in the text, the semantics
of regexp MatchString for this pattern. -/
def matchSomewhere (pat : List Char) : List Char → Bool
  | [] => matchesHere pat []
  | c :: cs => matchesHere pat (c :: cs) || matchSomewhere pat cs

/-- Embeds filter.MatchString of line 87. The trailing zero-or-more
slashes of the regexp never influence matchability, so only the literal
core with dot wildcards is searched for. -/
def filterMatch (s : String) : Bool := matchSomewhere filterPat s.data

/-- Embeds strings.Split(s, ".") on the character list: splits at every
dot, keeping empty groups, with [""] for the empty input, exactly Go's
semantics for a one-character separator. -/
def splitDots : List Char → List (List Char)
  | [] => [[]]
  | c :: cs =>
    if c = '.' then [] :: splitDots cs
    else
      match splitDots cs with
      | [] => [[c]]
      | g :: gs => (c :: g) :: gs

/-- Dot-separated components of a fully qualified type string. -/
def splitRet (s : String) : List String := (splitDots s.data).map List.asString

/-- Embeds the body of the extraction loop of Run for one symbol-usage
entry (lines 78-117 of mock.go, up to the aggregation step): skip
non-function objects, skip functions without an owning package, skip
packages not matching the filter, skip functions whose Parent() is not
nil, and otherwise extract the observation whose returnType is component
index 2 of the split type string of the first result; Except.error marks
the three fatal outcomes. -/
def extractSym : SymUse → Except ExtractErr (Option Obs)
  | .otherSym => .ok none
  | .funcSym f =>
    match f.pkg with
    | none => .ok none
    | some (path, shortName) =>
      if filterMatch path then
        if f.parentIsNil then
          match f.results with
          | none => .error .assertFailed
          | some rs =>
            match rs with
            | [] => .error .noResults
            | r :: _ =>
              match (splitRet r).get? 2 with
              | none => .error .shortTypeName
              | some ret =>
                .ok (some { pkgPath := path, pkgName := shortName,
                            funcName := f.name, returnType := ret })
        else .ok none
      else .ok none

/-- Embeds the serviceNames override table of lines 56-61 of mock.go. -/
def serviceNames : List (String × String) :=
  [("cloudformation", "CloudFormation"), ("dynamodb", "DynamoDB"),
   ("ec2", "EC2"), ("sts", "STS")]

/-- Map lookup in the override table. -/
def lookupName (s : String) : Option String :=
  (serviceNames.find? (fun kv => kv.1 == s)).map Prod.snd

/-- Embeds the ToTitle template helper of lines 166-171, parameterized by
the external locale-aware title-casing collaborator
cases.Title(language.English).String of the x/text library. -/
def toTitle (titler : String → String) (s : String) : String :=
  match lookupName s with
  | some n => n
  | none => titler s

/-- Embeds strings.ToLower, character-wise; Char.toLower agrees with the
Go mapping on the ASCII range relevant to the claims. -/
def goToLower (s : String) : String := String.mk (s.data.map Char.toLower)

/-- Embeds the FirstCharLower template helper of lines 172-174:
strings.ToLower(s)[0] indexes byte zero and panics on the empty string
(modelled by none); for a leading single-byte character the byte is the
character itself. -/
def firstCharLower (s : String) : Option String :=
  match (goToLower s).data with
  | [] => none
  | c :: _ => some (String.mk [c])

/-- Embeds the LowerCaseFirst template helper of lines 175-180:
[]rune(s) indexing r[0] panics on the empty string (modelled by none),
otherwise the first rune is lower-cased in place. -/
def lowerCaseFirst (s : String) : Option String :=
  match s.data with
  | [] => none
  | c :: rest => some (String.mk (Char.toLower c :: rest))

/-- Embeds the tail of Run after template rendering (lines 145-161 of
mock.go), parameterized by the external formatter imports.Process. The
first component is the byte sequence handed to opts.Writer.Write, none
when the run exits fatally before reaching the write; the second is the
sequence of payloads surfaced at debug verbosity (log.Debug of the raw
buffer at line 154 happens only on formatter failure). -/
def runTail (format : String → Except String String) (rendered : String)
    (debugEnabled : Bool) : Option String × List String :=
  match format rendered with
  | .error _ => (none, if debugEnabled then [rendered] else [])
  | .ok formatted => (some formatted, [])

theorem updateBucket_path (p : PackageInfo) (o : Obs) :
    (updateBucket p o).Path = p.Path := by
  unfold updateBucket
  split <;> rfl

theorem updateBucket_sigs (p : PackageInfo) (o : Obs) :
    (updateBucket p o).FuncSigs = dedupStep p.FuncSigs o.sig := by
  unfold updateBucket dedupStep
  split <;> simp_all

theorem findByPath_insertObs_ne (s : List PackageInfo) (o : Obs) (p : String)
    (h : p ≠ o.pkgPath) : findByPath (insertObs s o) p = findByPath s p := by
  induction s with
  | nil =>
    simp only [insertObs, findByPath, newBucket, List.find?_nil, List.find?_cons]
    have hne : (o.pkgPath == p) = false := by
      simp [Ne.symm h]
    simp [hne]
  | cons b rest ih =>
    simp only [insertObs]
    by_cases hb : b.Path = o.pkgPath
    · simp only [if_pos hb, findByPath, List.find?_cons]
      have h1 : ((updateBucket b o).Path == p) = false := by
        simp [updateBucket_path, hb, Ne.symm h]
      have h2 : (b.Path == p) = false := by
        simp [hb, Ne.symm h]
      simp [h1, h2]
    · simp only [if_neg hb, findByPath, List.find?_cons]
      by_cases hbp : b.Path = p
      · simp [hbp]
      · have h2 : (b.Path == p) = false := by simp [hbp]
        simpa [h2] using ih

theorem findByPath_insertObs_self (s : List PackageInfo) (o : Obs) :
    findByPath (insertObs s o) o.pkgPath =
      some (match findByPath s o.pkgPath with
            | none => newBucket o
            | some b => updateBucket b o) := by
  induction s with
  | nil =>
    simp [insertObs, findByPath, newBucket]
  | cons b rest ih =>
    simp only [insertObs]
    by_cases hb : b.Path = o.pkgPath
    · have h1 : ((updateBucket b o).Path == o.pkgPath) = true := by
        simp [updateBucket_path, hb]
      have h2 : (b.Path == o.pkgPath) = true := by simp [hb]
      simp [if_pos hb, findByPath, List.find?_cons, h1, h2]
    · have h2 : (b.Path == o.pkgPath) = false := by simp [hb]
      simp only [if_neg hb, findByPath, List.find?_cons, h2]
      simpa [findByPath] using ih

theorem mem_keys_insertObs (s : List PackageInfo) (o : Obs) (q : String) :
    q ∈ keys (insertObs s o) ↔ q ∈ keys s ∨ q = o.pkgPath := by
  induction s with
  | nil => simp [insertObs, keys, newBucket, eq_comm]
  | cons b rest ih =>
    simp only [insertObs]
    by_cases hb : b.Path = o.pkgPath
    · simp only [if_pos hb, keys, List.map_cons, List.mem_cons, updateBucket_path]
      constructor
      · rintro (h | h)
        · exact Or.inl (Or.inl h)
        · exact Or.inl (Or.inr h)
      · rintro ((h | h) | h)
        · exact Or.inl h
        · exact Or.inr h
        · exact Or.inl (h.trans hb.symm)
    · simp only [if_neg hb, keys, List.map_cons, List.mem_cons] at ih ⊢
      rw [ih]
      tauto

theorem nodup_keys_insertObs (s : List PackageInfo) (o : Obs)
    (h : (keys s).Nodup) : (keys (insertObs s o)).Nodup := by
  induction s with
  | nil => simp [insertObs, keys, newBucket]
  | cons b rest ih =>
    simp only [insertObs]
    by_cases hb : b.Path = o.pkgPath
    · simp only [if_pos hb]
      simpa [keys, updateBucket_path] using h
    · simp only [if_neg hb]
      simp only [keys, List.map_cons, List.nodup_cons] at h ⊢
      refine ⟨fun hmem => ?_, ih h.2⟩
      rcases (mem_keys_insertObs rest o b.Path).mp hmem with hin | heq
      · exact h.1 hin
      · exact hb heq

theorem nodup_keys_foldl (l : List Obs) (s : List PackageInfo)
    (h : (keys s).Nodup) : (keys (l.foldl insertObs s)).Nodup := by
  induction l generalizing s with
  | nil => simpa using h
  | cons o rest ih => exact ih (insertObs s o) (nodup_keys_insertObs s o h)

theorem nodup_keys_run (l : List Obs) : (keys (run l)).Nodup :=
  nodup_keys_foldl l [] (by simp [keys])

theorem run_append_singleton (l : List Obs) (o : Obs) :
    run (l ++ [o]) = insertObs (run l) o := by
  simp [run, List.foldl_append]

theorem obsAt_append_singleton (l : List Obs) (o : Obs) (p : String) :
    obsAt (l ++ [o]) p = obsAt l p ++ if o.pkgPath = p then [o] else [] := by
  by_cases h : o.pkgPath = p <;> simp [obsAt, List.filter_append, h]

theorem dedupSigs_append_singleton (fs : List FuncSig) (f : FuncSig) :
    dedupSigs (fs ++ [f]) = dedupStep (dedupSigs fs) f := by
  simp [dedupSigs, List.foldl_append]

theorem updateBucket_eq (p : PackageInfo) (o : Obs) :
    updateBucket p o = { p with FuncSigs := dedupStep p.FuncSigs o.sig } := by
  unfold updateBucket dedupStep
  split <;> rfl

theorem aggregateAt_append_same (l : List Obs) (o : Obs) :
    aggregateAt (l ++ [o]) o.pkgPath =
      some (match aggregateAt l o.pkgPath with
            | none => newBucket o
            | some b => updateBucket b o) := by
  rcases hcase : obsAt l o.pkgPath with _ | ⟨o₀, rest⟩
  · have hAgg : aggregateAt l o.pkgPath = none := by
      unfold aggregateAt
      rw [hcase]
    rw [hAgg]
    unfold aggregateAt
    rw [obsAt_append_singleton, if_pos rfl, hcase]
    simp [newBucket, dedupSigs, dedupStep, Obs.sig]
  · have hAgg : aggregateAt l o.pkgPath =
        some { Path := o.pkgPath, Name := o₀.pkgName,
               FuncSigs := dedupSigs ((o₀ :: rest).map Obs.sig) } := by
      unfold aggregateAt
      rw [hcase]
    rw [hAgg]
    unfold aggregateAt
    rw [obsAt_append_singleton, if_pos rfl, hcase]
    have hlist : (o₀ :: rest) ++ [o] = o₀ :: (rest ++ [o]) := by simp
    rw [hlist]
    simp only [Option.some.injEq]
    rw [updateBucket_eq, ← hlist, List.map_append]
    simp only [List.map_cons, List.map_nil]
    rw [dedupSigs_append_singleton]

theorem findByPath_run (l : List Obs) (p : String) :
    findByPath (run l) p = aggregateAt l p := by
  induction l using List.reverseRecOn with
  | nil => simp [run, findByPath, aggregateAt, obsAt]
  | append_singleton l o ih =>
    rw [run_append_singleton]
    by_cases hp : p = o.pkgPath
    · subst hp
      rw [findByPath_insertObs_self, ih, aggregateAt_append_same]
    · rw [findByPath_insertObs_ne _ _ _ hp, ih]
      unfold aggregateAt
      rw [obsAt_append_singleton, if_neg (fun h => hp h.symm), List.append_nil]

theorem aggregateAt_path (l : List Obs) (p : String) (b : PackageInfo)
    (h : aggregateAt l p = some b) : b.Path = p := by
  unfold aggregateAt at h
  rcases hcase : obsAt l p with _ | ⟨o₀, rest⟩ <;> rw [hcase] at h
  · simp at h
  · simp only [Option.some.injEq] at h
    rw [← h]

theorem find_of_mem_nodup_keys (s : List PackageInfo) (b : PackageInfo)
    (h : (keys s).Nodup) (hb : b ∈ s) : findByPath s b.Path = some b := by
  induction s with
  | nil => simp at hb
  | cons a rest ih =>
    rcases List.mem_cons.mp hb with heq | hmem
    · subst heq
      simp [findByPath, List.find?_cons]
    · simp only [keys, List.map_cons, List.nodup_cons] at h
      have hne : a.Path ≠ b.Path := by
        intro hcontr
        exact h.1 (hcontr ▸ List.mem_map_of_mem PackageInfo.Path hmem)
      have : (a.Path == b.Path) = false := by simp [hne]
      simp only [findByPath, List.find?_cons, this]
      exact ih h.2 hmem

theorem mem_run_iff (l : List Obs) (b : PackageInfo) :
    b ∈ run l ↔ aggregateAt l b.Path = some b := by
  constructor
  · intro hb
    rw [← findByPath_run]
    exact find_of_mem_nodup_keys (run l) b (nodup_keys_run l) hb
  · intro h
    have hfind := (findByPath_run l b.Path).trans h
    exact List.mem_of_find?_eq_some hfind

theorem mem_foldl_dedupStep (fs : List FuncSig) (acc : List FuncSig) (f : FuncSig) :
    f ∈ fs.foldl dedupStep acc ↔ f ∈ acc ∨ f ∈ fs := by
  induction fs generalizing acc with
  | nil => simp
  | cons g rest ih =>
    simp only [List.foldl_cons, ih, dedupStep]
    split <;> rename_i hmem
    · constructor
      · rintro (h | h)
        · exact Or.inl h
        · exact Or.inr (List.mem_cons_of_mem g h)
      · rintro (h | h)
        · exact Or.inl h
        · rcases List.mem_cons.mp h with rfl | h
          · exact Or.inl hmem
          · exact Or.inr h
    · simp only [List.mem_append, List.mem_singleton, List.mem_cons]
      tauto

theorem mem_dedupSigs (fs : List FuncSig) (f : FuncSig) :
    f ∈ dedupSigs fs ↔ f ∈ fs := by
  simp [dedupSigs, mem_foldl_dedupStep]

theorem nodup_foldl_dedupStep (fs : List FuncSig) (acc : List FuncSig)
    (h : acc.Nodup) : (fs.foldl dedupStep acc).Nodup := by
  induction fs generalizing acc with
  | nil => simpa using h
  | cons g rest ih =>
    simp only [List.foldl_cons]
    apply ih
    unfold dedupStep
    split <;> rename_i hmem
    · exact h
    · simpa [List.nodup_append] using ⟨h, hmem⟩

theorem nodup_dedupSigs (fs : List FuncSig) : (dedupSigs fs).Nodup :=
  nodup_foldl_dedupStep fs [] List.nodup_nil

theorem str_data_inj {a b : String} (h : a.data = b.data) : a = b := by
  cases a
  cases b
  exact congrArg String.mk h

theorem names_pairwise_ne (l : List Obs) (p : String) (hc : Coherent l) :
    (dedupSigs ((obsAt l p).map Obs.sig)).Pairwise
      (fun a b : FuncSig => a.FuncName ≠ b.FuncName) := by
  refine (nodup_dedupSigs ((obsAt l p).map Obs.sig)).imp_of_mem ?_
  intro a b ha hb hne heq
  rw [mem_dedupSigs] at ha hb
  rcases List.mem_map.mp ha with ⟨oa, hoa, rfl⟩
  rcases List.mem_map.mp hb with ⟨ob, hob, rfl⟩
  rcases List.mem_filter.mp hoa with ⟨hoal, hoap⟩
  rcases List.mem_filter.mp hob with ⟨hobl, hobp⟩
  have hpa : oa.pkgPath = p := by simpa using hoap
  have hpb : ob.pkgPath = p := by simpa using hobp
  have hcc := hc oa hoal ob hobl (hpa.trans hpb.symm)
  have hfn : oa.funcName = ob.funcName := heq
  have hrt : oa.returnType = ob.returnType := hcc.2 hfn
  exact hne (by simp [Obs.sig, hfn, hrt])

theorem sortSigs_eq_of_perm (A B : List FuncSig) (hAB : A.Perm B)
    (hA : A.Pairwise (fun a b : FuncSig => a.FuncName ≠ b.FuncName)) :
    A.insertionSort sigLe = B.insertionSort sigLe := by
  have hsymm : ∀ {a b : FuncSig}, a.FuncName ≠ b.FuncName → b.FuncName ≠ a.FuncName :=
    fun h => Ne.symm h
  have hpermA : (A.insertionSort sigLe).Perm A := A.perm_insertionSort sigLe
  have hpermB : (B.insertionSort sigLe).Perm B := B.perm_insertionSort sigLe
  have hB : B.Pairwise (fun a b : FuncSig => a.FuncName ≠ b.FuncName) :=
    (hAB.pairwise_iff fun h => hsymm h).mp hA
  have hnameA : (A.insertionSort sigLe).Pairwise
      (fun a b : FuncSig => a.FuncName ≠ b.FuncName) :=
    (hpermA.pairwise_iff fun h => hsymm h).mpr hA
  have hnameB : (B.insertionSort sigLe).Pairwise
      (fun a b : FuncSig => a.FuncName ≠ b.FuncName) :=
    (hpermB.pairwise_iff fun h => hsymm h).mpr hB
  refine List.eq_of_perm_of_sorted (r := sigKeyLt)
    (hpermA.trans (hAB.trans hpermB.symm)) ?_ ?_
  · exact (A.sorted_insertionSort sigLe).and hnameA
  · exact (B.sorted_insertionSort sigLe).and hnameB

theorem aggregateAt_perm (l₁ l₂ : List Obs) (hp : l₁.Perm l₂) (hc : Coherent l₁)
    (p : String) :
    Option.map sortBucket (aggregateAt l₁ p) = Option.map sortBucket (aggregateAt l₂ p) := by
  have hfil : (obsAt l₁ p).Perm (obsAt l₂ p) := hp.filter _
  rcases h1 : obsAt l₁ p with _ | ⟨o₁, r₁⟩ <;> rcases h2 : obsAt l₂ p with _ | ⟨o₂, r₂⟩
  · unfold aggregateAt
    rw [h1, h2]
  · rw [h1, h2] at hfil
    exact absurd hfil.symm (by simp)
  · rw [h1, h2] at hfil
    exact absurd hfil (by simp)
  · have ho₁ : o₁ ∈ obsAt l₁ p := by rw [h1]; exact List.mem_cons_self o₁ r₁
    have ho₂ : o₂ ∈ obsAt l₁ p := hfil.symm.subset (by rw [h2]; exact List.mem_cons_self o₂ r₂)
    have hp₁ : o₁.pkgPath = p := by
      simpa using (List.mem_filter.mp ho₁).2
    have hp₂ : o₂.pkgPath = p := by
      simpa using (List.mem_filter.mp ho₂).2
    have hname : o₁.pkgName = o₂.pkgName :=
      (hc o₁ (List.mem_filter.mp ho₁).1 o₂ (List.mem_filter.mp ho₂).1
        (hp₁.trans hp₂.symm)).1
    have hD : (dedupSigs ((obsAt l₁ p).map Obs.sig)).Perm
        (dedupSigs ((obsAt l₂ p).map Obs.sig)) := by
      refine (List.perm_ext_iff_of_nodup (nodup_dedupSigs _) (nodup_dedupSigs _)).mpr ?_
      intro f
      rw [mem_dedupSigs, mem_dedupSigs]
      exact (hfil.map Obs.sig).mem_iff
    have hS : ((dedupSigs ((obsAt l₁ p).map Obs.sig)).insertionSort sigLe) =
        ((dedupSigs ((obsAt l₂ p).map Obs.sig)).insertionSort sigLe) :=
      sortSigs_eq_of_perm _ _ hD (names_pairwise_ne l₁ p hc)
    unfold aggregateAt
    rw [h1, h2]
    simp only [Option.map_some']
    unfold sortBucket
    rw [← h1, ← h2]
    simp [hname, hS]

theorem sortBucket_path (b : PackageInfo) : (sortBucket b).Path = b.Path := rfl

theorem mem_aggregate_iff (l : List Obs) (b : PackageInfo) :
    b ∈ aggregate l ↔ ∃ b', aggregateAt l b'.Path = some b' ∧ b = sortBucket b' := by
  unfold aggregate sortPackages
  rw [List.mem_insertionSort]
  constructor
  · intro hb
    rcases List.mem_map.mp hb with ⟨b', hb', rfl⟩
    exact ⟨b', (mem_run_iff l b').mp hb', rfl⟩
  · rintro ⟨b', hb', rfl⟩
    exact List.mem_map.mpr ⟨b', (mem_run_iff l b').mpr hb', rfl⟩

theorem nodup_keys_aggregate (l : List Obs) : (keys (aggregate l)).Nodup := by
  have hperm : (aggregate l).Perm ((run l).map sortBucket) := by
    unfold aggregate sortPackages
    exact List.perm_insertionSort pkgLe _
  have hmap : keys ((run l).map sortBucket) = keys (run l) := by
    unfold keys
    rw [List.map_map]
    rfl
  have : (keys (aggregate l)).Perm (keys ((run l).map sortBucket)) := hperm.map _
  rw [hmap] at this
  exact this.nodup_iff.mpr (nodup_keys_run l)

theorem pairwise_path_ne_of_nodup_keys (s : List PackageInfo)
    (h : (keys s).Nodup) : s.Pairwise (fun a b : PackageInfo => a.Path ≠ b.Path) := by
  unfold keys at h
  exact List.pairwise_map.mp h

theorem sorted_pkgKeyLt_aggregate (l : List Obs) :
    (aggregate l).Pairwise pkgKeyLt := by
  have hs : (aggregate l).Pairwise pkgLe := by
    unfold aggregate sortPackages
    exact List.sorted_insertionSort pkgLe _
  exact hs.and (pairwise_path_ne_of_nodup_keys _ (nodup_keys_aggregate l))

theorem coherent_of_perm (l₁ l₂ : List Obs) (hp : l₁.Perm l₂) (hc : Coherent l₁) :
    Coherent l₂ := by
  intro o₁ h₁ o₂ h₂ hpath
  exact hc o₁ (hp.mem_iff.mpr h₁) o₂ (hp.mem_iff.mpr h₂) hpath

theorem aggregate_perm_eq (l₁ l₂ : List Obs) (hp : l₁.Perm l₂) (hc : Coherent l₁) :
    aggregate l₁ = aggregate l₂ := by
  have hnd₁ : (aggregate l₁).Nodup := (nodup_keys_aggregate l₁).of_map PackageInfo.Path
  have hnd₂ : (aggregate l₂).Nodup := (nodup_keys_aggregate l₂).of_map PackageInfo.Path
  have hmemiff : ∀ (m₁ m₂ : List Obs), m₁.Perm m₂ → Coherent m₁ →
      ∀ b ∈ aggregate m₁, b ∈ aggregate m₂ := by
    intro m₁ m₂ hperm hcoh b hb
    rcases (mem_aggregate_iff m₁ b).mp hb with ⟨b', hb', rfl⟩
    have hopt := aggregateAt_perm m₁ m₂ hperm hcoh b'.Path
    rw [hb'] at hopt
    cases h2 : aggregateAt m₂ b'.Path with
    | none =>
      rw [h2] at hopt
      simp at hopt
    | some b'' =>
      rw [h2] at hopt
      simp only [Option.map_some', Option.some.injEq] at hopt
      have hpath : b''.Path = b'.Path := aggregateAt_path m₂ b'.Path b'' h2
      exact (mem_aggregate_iff m₂ (sortBucket b')).mpr ⟨b'', by rw [hpath]; exact h2, hopt⟩
  have hperm : (aggregate l₁).Perm (aggregate l₂) := by
    refine (List.perm_ext_iff_of_nodup hnd₁ hnd₂).mpr ?_
    intro b
    constructor
    · exact hmemiff l₁ l₂ hp hc b
    · exact hmemiff l₂ l₁ hp.symm (coherent_of_perm l₁ l₂ hp hc) b
  exact List.eq_of_perm_of_sorted (r := pkgKeyLt) hperm
    (sorted_pkgKeyLt_aggregate l₁) (sorted_pkgKeyLt_aggregate l₂)

theorem nodup_dedupStep (acc : List FuncSig) (f : FuncSig) (h : acc.Nodup) :
    (dedupStep acc f).Nodup := by
  unfold dedupStep
  split <;> rename_i hmem
  · exact h
  · simpa [List.nodup_append] using ⟨h, hmem⟩

theorem nodup_sigs_insertObs (s : List PackageInfo) (o : Obs)
    (h : ∀ b ∈ s, b.FuncSigs.Nodup) :
    ∀ b ∈ insertObs s o, b.FuncSigs.Nodup := by
  induction s with
  | nil =>
    intro b hb
    simp only [insertObs, List.mem_singleton] at hb
    subst hb
    simp [newBucket, Obs.sig]
  | cons p rest ih =>
    intro b hb
    simp only [insertObs] at hb
    by_cases hp : p.Path = o.pkgPath
    · rw [if_pos hp] at hb
      rcases List.mem_cons.mp hb with rfl | hmem
      · rw [updateBucket_eq]
        exact nodup_dedupStep _ _ (h p (List.mem_cons_self p rest))
      · exact h b (List.mem_cons_of_mem p hmem)
    · rw [if_neg hp] at hb
      rcases List.mem_cons.mp hb with rfl | hmem
      · exact h b (List.mem_cons_self b rest)
      · exact ih (fun c hc => h c (List.mem_cons_of_mem p hc)) b hmem

theorem nodup_sigs_foldl (l : List Obs) (s : List PackageInfo)
    (h : ∀ b ∈ s, b.FuncSigs.Nodup) :
    ∀ b ∈ l.foldl insertObs s, b.FuncSigs.Nodup := by
  induction l generalizing s with
  | nil => simpa using h
  | cons o rest ih =>
    exact ih (insertObs s o) (nodup_sigs_insertObs s o h)

theorem sig_mem_updateBucket (p : PackageInfo) (o : Obs) :
    o.sig ∈ (updateBucket p o).FuncSigs := by
  rw [updateBucket_eq]
  unfold dedupStep
  split <;> simp_all

theorem updateBucket_of_mem (p : PackageInfo) (o : Obs) (h : o.sig ∈ p.FuncSigs) :
    updateBucket p o = p := by
  unfold updateBucket
  rw [if_pos h]

theorem insertObs_idem (s : List PackageInfo) (o : Obs) :
    insertObs (insertObs s o) o = insertObs s o := by
  induction s with
  | nil =>
    simp only [insertObs, newBucket, if_true]
    rw [updateBucket_of_mem _ _ (by simp)]
  | cons p rest ih =>
    simp only [insertObs]
    by_cases hp : p.Path = o.pkgPath
    · rw [if_pos hp]
      simp only [insertObs]
      rw [if_pos ((updateBucket_path p o).trans hp)]
      rw [updateBucket_of_mem _ _ (sig_mem_updateBucket p o)]
    · rw [if_neg hp]
      simp only [insertObs]
      rw [if_neg hp, ih]

end AwsMocker

namespace AwsMocker

/-- Claim C1 (counterexample): as stated, aggregation output is NOT a pure
function of the set of observations for every input. Two conflicting
observations for the same package and function name but different return
types are both kept (dedup compares the whole pair at line 104 of
mock.go), and the resulting bucket lists them in encounter order, which
the FuncName-keyed sort cannot canonicalize; likewise the bucket's Name
is taken from whichever observation for the package comes first. Both
failures are witnessed here on two-element permutations. -/
theorem C1_counterexample :
    ((([⟨"p", "n", "F", "A"⟩, ⟨"p", "n", "F", "B"⟩] : List Obs).Perm
        [⟨"p", "n", "F", "B"⟩, ⟨"p", "n", "F", "A"⟩]) ∧
      aggregate [⟨"p", "n", "F", "A"⟩, ⟨"p", "n", "F", "B"⟩] ≠
        aggregate [⟨"p", "n", "F", "B"⟩, ⟨"p", "n", "F", "A"⟩]) ∧
    ((([⟨"p", "m", "G", "R"⟩, ⟨"p", "n", "H", "S"⟩] : List Obs).Perm
        [⟨"p", "n", "H", "S"⟩, ⟨"p", "m", "G", "R"⟩]) ∧
      aggregate [⟨"p", "m", "G", "R"⟩, ⟨"p", "n", "H", "S"⟩] ≠
        aggregate [⟨"p", "n", "H", "S"⟩, ⟨"p", "m", "G", "R"⟩]) :=
  ⟨⟨List.Perm.swap _ _ _, by decide⟩, ⟨List.Perm.swap _ _ _, by decide⟩⟩

/-- Claim C1 (amended): for coherent observation streams — no two
observations give the same package path different short names, and no two
give the same function of the same package different return types, which
is always the case for streams produced by the extractor — the aggregated
and sorted output is invariant under permutation of the input sequence,
hence a pure function of the set of observations. -/
theorem C1_determinism (l₁ l₂ : List Obs) (hp : l₁.Perm l₂) (hc : Coherent l₁) :
    aggregate l₁ = aggregate l₂ :=
  aggregate_perm_eq l₁ l₂ hp hc

/-- Claim C1 witness: the amended determinism theorem applied at a
concrete pair of permuted coherent inputs. -/
theorem C1_determinism_witness :
    (([⟨"svc/b", "b", "F", "R"⟩, ⟨"svc/a", "a", "G", "S"⟩] : List Obs).Perm
      [⟨"svc/a", "a", "G", "S"⟩, ⟨"svc/b", "b", "F", "R"⟩]) ∧
    Coherent [⟨"svc/b", "b", "F", "R"⟩, ⟨"svc/a", "a", "G", "S"⟩] ∧
    aggregate [⟨"svc/b", "b", "F", "R"⟩, ⟨"svc/a", "a", "G", "S"⟩] =
      aggregate [⟨"svc/a", "a", "G", "S"⟩, ⟨"svc/b", "b", "F", "R"⟩] :=
  ⟨List.Perm.swap _ _ _, by decide,
    C1_determinism _ _ (List.Perm.swap _ _ _) (by decide)⟩

/-- Claim C2: every output of sortPackages has adjacent buckets ordered by
Path and, inside every bucket, adjacent signatures ordered by FuncName;
moreover the two end-to-end scenarios of the spec hold: the two svc/a
observations produce one bucket listing BatchGetItem before ListTables,
and buckets submitted as svc/b, svc/a come out as svc/a, svc/b. -/
theorem C2_sort_invariant :
    (∀ s : List PackageInfo,
      (sortPackages s).Chain' pkgLe ∧
        ∀ b ∈ sortPackages s, b.FuncSigs.Chain' sigLe) ∧
    (aggregate
        [⟨"svc/a", "a", "ListTables", "ListTablesOutput"⟩,
         ⟨"svc/a", "a", "BatchGetItem", "BatchGetItemOutput"⟩] =
      [⟨"svc/a", "a",
        [⟨"BatchGetItem", "BatchGetItemOutput"⟩,
         ⟨"ListTables", "ListTablesOutput"⟩]⟩]) ∧
    ((sortPackages [⟨"svc/b", "b", []⟩, ⟨"svc/a", "a", []⟩]).map PackageInfo.Path =
      ["svc/a", "svc/b"]) := by
  refine ⟨fun s => ⟨?_, ?_⟩, by decide, by decide⟩
  · exact (List.sorted_insertionSort pkgLe _).chain'
  · intro b hb
    unfold sortPackages at hb
    rw [List.mem_insertionSort] at hb
    rcases List.mem_map.mp hb with ⟨b', _, rfl⟩
    exact (List.sorted_insertionSort sigLe _).chain'

/-- Claim C2 witness: the universally quantified sort invariant applied at
a concrete unsorted input map, with the bucket membership hypothesis
discharged by evaluation. -/
theorem C2_sort_invariant_witness :
    (sortPackages [⟨"q", "n", [⟨"B", "R"⟩, ⟨"A", "S"⟩]⟩]).Chain' pkgLe ∧
    (PackageInfo.mk "q" "n" [⟨"A", "S"⟩, ⟨"B", "R"⟩]).FuncSigs.Chain' sigLe :=
  ⟨(C2_sort_invariant.1 _).1,
   (C2_sort_invariant.1 [⟨"q", "n", [⟨"B", "R"⟩, ⟨"A", "S"⟩]⟩]).2
     (PackageInfo.mk "q" "n" [⟨"A", "S"⟩, ⟨"B", "R"⟩]) (by decide)⟩

/-- Claim C3 (counterexample): two entries of one bucket CAN share the
same functionName, because the dedup test of line 104 of mock.go compares
the whole (FuncName, Return) pair: observing function F of package p
first with return type A and then with return type B keeps both
signatures instead of keeping the first-seen return type. -/
theorem C3_counterexample :
    run [⟨"p", "n", "F", "A"⟩, ⟨"p", "n", "F", "B"⟩] =
      [⟨"p", "n", [⟨"F", "A"⟩, ⟨"F", "B"⟩]⟩] ∧
    ¬ ∀ b ∈ run [⟨"p", "n", "F", "A"⟩, ⟨"p", "n", "F", "B"⟩],
        (b.FuncSigs.map FuncSig.FuncName).Nodup := by
  constructor
  · decide
  · decide

/-- Claim C3 (amended): the bucket invariant keyed by the whole signature
pair: after aggregating any sequence of observations no two entries of a
bucket's signature list are the same (functionName, returnTypeName) pair;
an observation whose pair is already present is silently discarded
(updateBucket is the identity), while a pair not yet present is appended
even when its function name is already taken. -/
theorem C3_pair_uniqueness (l : List Obs) (b : PackageInfo) (hb : b ∈ run l) :
    b.FuncSigs.Nodup ∧
    (∀ o : Obs, o.sig ∈ b.FuncSigs → updateBucket b o = b) ∧
    (∀ o : Obs, o.sig ∉ b.FuncSigs →
      updateBucket b o = { b with FuncSigs := b.FuncSigs ++ [o.sig] }) := by
  refine ⟨nodup_sigs_foldl l [] (by simp) b hb, ?_, ?_⟩
  · intro o ho
    exact updateBucket_of_mem b o ho
  · intro o ho
    unfold updateBucket
    rw [if_neg ho]

/-- Claim C3 witness: the amended bucket invariant applied to the bucket
produced by the counterexample input, discharging the membership and the
two signature-membership hypotheses by evaluation. -/
theorem C3_pair_uniqueness_witness :
    ([⟨"F", "A"⟩, ⟨"F", "B"⟩] : List FuncSig).Nodup ∧
    updateBucket ⟨"p", "n", [⟨"F", "A"⟩, ⟨"F", "B"⟩]⟩ ⟨"p", "n", "F", "A"⟩ =
      ⟨"p", "n", [⟨"F", "A"⟩, ⟨"F", "B"⟩]⟩ ∧
    updateBucket ⟨"p", "n", [⟨"F", "A"⟩, ⟨"F", "B"⟩]⟩ ⟨"p", "n", "G", "C"⟩ =
      ⟨"p", "n", [⟨"F", "A"⟩, ⟨"F", "B"⟩, ⟨"G", "C"⟩]⟩ :=
  ⟨(C3_pair_uniqueness [⟨"p", "n", "F", "A"⟩, ⟨"p", "n", "F", "B"⟩]
      ⟨"p", "n", [⟨"F", "A"⟩, ⟨"F", "B"⟩]⟩ (by decide)).1,
   (C3_pair_uniqueness [⟨"p", "n", "F", "A"⟩, ⟨"p", "n", "F", "B"⟩]
      ⟨"p", "n", [⟨"F", "A"⟩, ⟨"F", "B"⟩]⟩ (by decide)).2.1
      ⟨"p", "n", "F", "A"⟩ (by decide),
   (C3_pair_uniqueness [⟨"p", "n", "F", "A"⟩, ⟨"p", "n", "F", "B"⟩]
      ⟨"p", "n", [⟨"F", "A"⟩, ⟨"F", "B"⟩]⟩ (by decide)).2.2
      ⟨"p", "n", "G", "C"⟩ (by decide)⟩

/-- Claim C4: inserting the identical observation twice leaves the
aggregation state exactly as inserting it once does (so in particular the
bucket's signature list has the same length), and the end-to-end scenario
holds: the same observation submitted twice yields a single bucket with
exactly one signature. -/
theorem C4_dedup_idempotence :
    (∀ (s : List PackageInfo) (o : Obs), insertObs (insertObs s o) o = insertObs s o) ∧
    (∀ o : Obs, (run [o, o]).map (fun b => b.FuncSigs.length) = [1]) := by
  refine ⟨insertObs_idem, fun o => ?_⟩
  show (insertObs (insertObs [] o) o).map (fun b => b.FuncSigs.length) = [1]
  rw [insertObs_idem]
  simp [insertObs, newBucket, Obs.sig]

/-- Claim C5: an observation is emitted only for a function-kind symbol
with an owning package whose path matches the filter and whose Parent()
is nil; a non-function object, a function without an owning package, a
function of a non-matching package, and a function with a non-nil
Parent() are all skipped with no failure. -/
theorem C5_emission_preconditions :
    (extractSym .otherSym = .ok none) ∧
    (∀ f : FuncSym, f.pkg = none → extractSym (.funcSym f) = .ok none) ∧
    (∀ (f : FuncSym) (path short : String),
        f.pkg = some (path, short) → filterMatch path = false →
        extractSym (.funcSym f) = .ok none) ∧
    (∀ f : FuncSym, f.parentIsNil = false → extractSym (.funcSym f) = .ok none) ∧
    (∀ (f : FuncSym) (o : Obs), extractSym (.funcSym f) = .ok (some o) →
        f.parentIsNil = true ∧
        ∃ path short, f.pkg = some (path, short) ∧ filterMatch path = true) := by
  refine ⟨rfl, ?_, ?_, ?_, ?_⟩
  · intro f h
    simp [extractSym, h]
  · intro f path short hp hm
    simp [extractSym, hp, hm]
  · intro f hpar
    rcases hp : f.pkg with _ | ⟨path, short⟩
    · simp [extractSym, hp]
    · simp [extractSym, hp, hpar]
  · intro f o h
    unfold extractSym at h
    dsimp only at h
    rcases hp : f.pkg with _ | ⟨path, short⟩ <;> rw [hp] at h
    · simp at h
    · dsimp only at h
      by_cases hm : filterMatch path
      · rw [if_pos hm] at h
        by_cases hpar : f.parentIsNil = true
        · exact ⟨hpar, path, short, rfl, hm⟩
        · rw [if_neg hpar] at h
          simp at h
      · rw [if_neg hm] at h
        simp at h

/-- Claim C5 witness: the skip and emission branches exercised at
concrete symbols, hypotheses discharged by evaluation. -/
theorem C5_emission_witness :
    extractSym (.funcSym ⟨"F", none, true, some ["a.b.c"]⟩) = .ok none ∧
    extractSym (.funcSym ⟨"F", some ("fmt", "fmt"), true, some ["a.b.c"]⟩) = .ok none ∧
    extractSym (.funcSym ⟨"F",
      some ("github.com/aws/aws-sdk-go-v2/service/sts", "sts"), false,
      some ["a.b.c"]⟩) = .ok none ∧
    ((⟨"GetCallerIdentity",
        some ("github.com/aws/aws-sdk-go-v2/service/sts", "sts"), true,
        some ["*github.com/aws/aws-sdk-go-v2/service/sts.GetCallerIdentityOutput"]⟩ :
        FuncSym).parentIsNil = true ∧
      ∃ path short,
        (⟨"GetCallerIdentity",
          some ("github.com/aws/aws-sdk-go-v2/service/sts", "sts"), true,
          some ["*github.com/aws/aws-sdk-go-v2/service/sts.GetCallerIdentityOutput"]⟩ :
          FuncSym).pkg = some (path, short) ∧ filterMatch path = true) :=
  ⟨C5_emission_preconditions.2.1 _ rfl,
   C5_emission_preconditions.2.2.1 _ "fmt" "fmt" rfl (by decide),
   C5_emission_preconditions.2.2.2.1 _ rfl,
   C5_emission_preconditions.2.2.2.2 _
     ⟨"github.com/aws/aws-sdk-go-v2/service/sts", "sts", "GetCallerIdentity",
      "GetCallerIdentityOutput"⟩ rfl⟩

/-- Claim C6: whenever an observation is emitted for a function whose
first declared result has fully qualified type string r, the emitted
returnTypeName is the component of index 2 of r split on dots. -/
theorem C6_return_extraction (f : FuncSym) (o : Obs) (r : String) (rs : List String)
    (hr : f.results = some (r :: rs)) (he : extractSym (.funcSym f) = .ok (some o)) :
    (splitRet r).get? 2 = some o.returnType := by
  unfold extractSym at he
  dsimp only at he
  rcases hp : f.pkg with _ | ⟨path, short⟩ <;> rw [hp] at he
  · simp at he
  · dsimp only at he
    by_cases hm : filterMatch path
    · rw [if_pos hm] at he
      by_cases hpar : f.parentIsNil = true
      · rw [if_pos hpar, hr] at he
        dsimp only at he
        rcases hs : (splitRet r).get? 2 with _ | ret <;> rw [hs] at he
        · simp at he
        · simp only [Except.ok.injEq, Option.some.injEq] at he
          rw [← he]
      · rw [if_neg hpar] at he
        simp at he
    · rw [if_neg hm] at he
      simp at he

/-- Claim C6 witness: the extraction rule applied at a concrete accepted
symbol whose result type string splits as starred domain, path, and
wrapper type name. -/
theorem C6_return_extraction_witness :
    (splitRet "*github.com/aws/aws-sdk-go-v2/service/sts.GetCallerIdentityOutput").get? 2 =
      some (Obs.returnType ⟨"github.com/aws/aws-sdk-go-v2/service/sts", "sts",
        "GetCallerIdentity", "GetCallerIdentityOutput"⟩) :=
  C6_return_extraction
    ⟨"GetCallerIdentity", some ("github.com/aws/aws-sdk-go-v2/service/sts", "sts"),
      true, some ["*github.com/aws/aws-sdk-go-v2/service/sts.GetCallerIdentityOutput"]⟩
    ⟨"github.com/aws/aws-sdk-go-v2/service/sts", "sts", "GetCallerIdentity",
      "GetCallerIdentityOutput"⟩
    "*github.com/aws/aws-sdk-go-v2/service/sts.GetCallerIdentityOutput" []
    rfl rfl

/-- Claim C7: a filtered function symbol whose signature has zero return
values makes the run fail (the fatal noResults outcome), it is not
skipped; and under the precondition that the signature resolves and has
at least one return value, the malformed-signature error outcomes
(assertFailed and noResults) are unreachable — any remaining fatality is
the distinct short-type-string panic of the split indexing. -/
theorem C7_malformed_fatal :
    (∀ (f : FuncSym) (path short : String),
        f.pkg = some (path, short) → filterMatch path = true →
        f.parentIsNil = true → f.results = some [] →
        extractSym (.funcSym f) = .error .noResults) ∧
    (∀ (f : FuncSym) (rs : List String), f.results = some rs → rs ≠ [] →
        ∀ e : ExtractErr, extractSym (.funcSym f) = .error e →
        e = .shortTypeName) := by
  constructor
  · intro f path short hp hm hpar hr
    unfold extractSym
    dsimp only
    rw [hp]
    dsimp only
    rw [if_pos hm, if_pos hpar, hr]
  · intro f rs hr hne e he
    unfold extractSym at he
    dsimp only at he
    rcases hp : f.pkg with _ | ⟨path, short⟩ <;> rw [hp] at he
    · simp at he
    · dsimp only at he
      by_cases hm : filterMatch path
      · rw [if_pos hm] at he
        by_cases hpar : f.parentIsNil = true
        · rw [if_pos hpar, hr] at he
          rcases rs with _ | ⟨r, rest⟩
          · exact absurd rfl hne
          · dsimp only at he
            rcases hs : (splitRet r).get? 2 with _ | ret <;> rw [hs] at he
            · simp only [Except.error.injEq] at he
              exact he.symm
            · simp at he
        · rw [if_neg hpar] at he
          simp at he
      · rw [if_neg hm] at he
        simp at he

/-- Claim C7 witness: the zero-results fatality and the unreachability
statement applied at concrete symbols, hypotheses discharged by
evaluation. -/
theorem C7_malformed_fatal_witness :
    extractSym (.funcSym ⟨"Broken",
      some ("github.com/aws/aws-sdk-go-v2/service/ec2", "ec2"), true, some []⟩) =
      .error .noResults ∧
    (ExtractErr.shortTypeName = ExtractErr.shortTypeName) :=
  ⟨C7_malformed_fatal.1
      ⟨"Broken", some ("github.com/aws/aws-sdk-go-v2/service/ec2", "ec2"), true, some []⟩
      "github.com/aws/aws-sdk-go-v2/service/ec2" "ec2" rfl (by decide) rfl rfl,
   C7_malformed_fatal.2
      ⟨"Odd", some ("github.com/aws/aws-sdk-go-v2/service/ec2", "ec2"), true, some ["ab"]⟩
      ["ab"] rfl (by decide) .shortTypeName rfl⟩

/-- Claim C8: the ToTitle resolver returns the override-table value
verbatim for every key of the table (in particular STS for sts) and the
title-cased form computed by the external title-casing collaborator for
every absent name (in particular somenewservice); as a Lean function of
its inputs it is pure and deterministic by construction. -/
theorem C8_naming_override :
    (∀ (titler : String → String) (s v : String),
        lookupName s = some v → toTitle titler s = v) ∧
    (∀ (titler : String → String) (s : String),
        lookupName s = none → toTitle titler s = titler s) ∧
    (∀ titler : String → String, toTitle titler "sts" = "STS") ∧
    (∀ titler : String → String,
        lookupName "somenewservice" = none ∧
        toTitle titler "somenewservice" = titler "somenewservice") := by
  refine ⟨?_, ?_, fun titler => rfl, fun titler => ⟨rfl, rfl⟩⟩
  · intro titler s v h
    unfold toTitle
    rw [h]
  · intro titler s h
    unfold toTitle
    rw [h]

/-- Claim C8 witness: the override and fallback branches applied at the
concrete names of the claim. -/
theorem C8_naming_override_witness :
    toTitle (fun s => s) "sts" = "STS" ∧
    toTitle (fun s => String.append s "!") "somenewservice" =
      String.append "somenewservice" "!" :=
  ⟨C8_naming_override.1 (fun s => s) "sts" "STS" rfl,
   C8_naming_override.2.1 (fun s => String.append s "!") "somenewservice" rfl⟩

/-- Claim C9: when the formatter rejects the rendered text nothing is
handed to the sink and the raw text is surfaced exactly at debug
verbosity (and only then); anything that reaches the sink is a formatter
success output, so either a complete formatted document is written or
nothing is. -/
theorem C9_format_atomicity :
    (∀ (format : String → Except String String) (rendered e : String) (dbg : Bool),
        format rendered = .error e →
        (runTail format rendered dbg).1 = none ∧
        (runTail format rendered true).2 = [rendered] ∧
        (runTail format rendered false).2 = []) ∧
    (∀ (format : String → Except String String) (rendered : String) (dbg : Bool)
        (w : String),
        (runTail format rendered dbg).1 = some w → format rendered = .ok w) := by
  constructor
  · intro format rendered e dbg h
    refine ⟨?_, ?_, ?_⟩ <;> simp [runTail, h]
  · intro format rendered dbg w h
    unfold runTail at h
    rcases hf : format rendered with e | formatted <;> rw [hf] at h
    · simp at h
    · simp only at h
      simp at h
      rw [h]

/-- Claim C9 witness: the failing and succeeding formatter cases at
concrete inputs, hypotheses discharged by evaluation. -/
theorem C9_format_atomicity_witness :
    (runTail (fun _ => .error "bad") "raw" true).1 = none ∧
    (runTail (fun _ => .error "bad") "raw" true).2 = ["raw"] ∧
    (runTail (fun _ => .error "bad") "raw" false).2 = [] ∧
    (fun _ => (.ok "out" : Except String String)) "raw" = .ok "out" :=
  ⟨(C9_format_atomicity.1 (fun _ => .error "bad") "raw" "bad" true rfl).1,
   (C9_format_atomicity.1 (fun _ => .error "bad") "raw" "bad" true rfl).2.1,
   (C9_format_atomicity.1 (fun _ => .error "bad") "raw" "bad" false rfl).2.2,
   C9_format_atomicity.2 (fun _ => .ok "out") "raw" true "out" rfl⟩

/-- Claim C10: both string helpers reach their out-of-bounds branch on
the empty string, so they are total only for non-empty inputs, where both
succeed; and for a non-empty string whose first character is single-byte
(ASCII), FirstCharLower returns the one-character string of the
lower-cased first character. -/
theorem C10_helper_partiality :
    firstCharLower "" = none ∧
    lowerCaseFirst "" = none ∧
    (∀ s : String, s ≠ "" → (firstCharLower s).isSome ∧ (lowerCaseFirst s).isSome) ∧
    (∀ (c : Char) (cs : List Char), c.toNat < 128 →
        firstCharLower (String.mk (c :: cs)) = some (String.mk [c.toLower])) := by
  refine ⟨rfl, rfl, ?_, fun c cs h => rfl⟩
  intro s hs
  rcases hd : s.data with _ | ⟨c, rest⟩
  · exact absurd (str_data_inj hd) hs
  · exact ⟨by simp [firstCharLower, goToLower, hd], by simp [lowerCaseFirst, hd]⟩

/-- Claim C10 witness: the non-emptiness and single-byte hypotheses
discharged at the concrete strings Hello and Hi. -/
theorem C10_helper_partiality_witness :
    ("Hello" ≠ "" ∧ (firstCharLower "Hello").isSome ∧ (lowerCaseFirst "Hello").isSome) ∧
    (Char.toNat 'H' < 128 ∧
      firstCharLower (String.mk ['H', 'i']) = some (String.mk ['h'])) :=
  ⟨⟨by decide, (C10_helper_partiality.2.2.1 "Hello" (by decide)).1,
    (C10_helper_partiality.2.2.1 "Hello" (by decide)).2⟩,
   ⟨by decide, C10_helper_partiality.2.2.2 'H' ['i'] (by decide)⟩⟩

end AwsMocker
